import Mathlib

/-!
Verification of the `thermy` thermal-printer driver (`src/thermy.py`).

This file shallowly embeds the protocol encoder (`CatProtocol` / `CatPrinter`),
the transport buffer (`pend` / `flush` / `send`), the session phase operations
(`prepare` / `finish`), and the image pipeline (`apply_threshold_dither`,
`apply_floyd_steinberg_dither`, `rgba_to_bits`, line splitting from
`bitmap_to_print_data`) as executable Lean definitions, and proves the
specification claims about them.

Modelling conventions:
* Python `bytes` / `bytearray` values are `List Nat` (each element a byte).
* Python machine integers are `Nat`; bit operations (`&`, `>>`, `<<`, `|`, `^`)
  are the corresponding `Nat` operations.
* Python `float` arithmetic in the dithering code is modelled by exact rational
  arithmetic (`ℚ`); IEEE-754 rounding is not modelled.  Python's `int()`
  truncation toward zero is `pyInt` below.
* The `asyncio` layer is sequentialized: `await` chains become ordinary
  sequencing.  The `pause` flag of `CatPrinter.state` is never written anywhere
  in the program, so `flush`'s pause-wait loop is the identity and is omitted.
* Out-of-range assignment into the fixed-size `bytearray` (which raises
  `IndexError` in Python) is modelled by `Option`: `none` means the operation
  raises instead of completing.
-/

set_option maxRecDepth 10000

namespace Thermy

/-- `CatProtocol.CRC8_TABLE` from `src/thermy.py`. -/
def CRC8_TABLE : List Nat := [
  0x00, 0x07, 0x0e, 0x09, 0x1c, 0x1b, 0x12, 0x15, 0x38, 0x3f, 0x36, 0x31,
  0x24, 0x23, 0x2a, 0x2d, 0x70, 0x77, 0x7e, 0x79, 0x6c, 0x6b, 0x62, 0x65,
  0x48, 0x4f, 0x46, 0x41, 0x54, 0x53, 0x5a, 0x5d, 0xe0, 0xe7, 0xee, 0xe9,
  0xfc, 0xfb, 0xf2, 0xf5, 0xd8, 0xdf, 0xd6, 0xd1, 0xc4, 0xc3, 0xca, 0xcd,
  0x90, 0x97, 0x9e, 0x99, 0x8c, 0x8b, 0x82, 0x85, 0xa8, 0xaf, 0xa6, 0xa1,
  0xb4, 0xb3, 0xba, 0xbd, 0xc7, 0xc0, 0xc9, 0xce, 0xdb, 0xdc, 0xd5, 0xd2,
  0xff, 0xf8, 0xf1, 0xf6, 0xe3, 0xe4, 0xed, 0xea, 0xb7, 0xb0, 0xb9, 0xbe,
  0xab, 0xac, 0xa5, 0xa2, 0x8f, 0x88, 0x81, 0x86, 0x93, 0x94, 0x9d, 0x9a,
  0x27, 0x20, 0x29, 0x2e, 0x3b, 0x3c, 0x35, 0x32, 0x1f, 0x18, 0x11, 0x16,
  0x03, 0x04, 0x0d, 0x0a, 0x57, 0x50, 0x59, 0x5e, 0x4b, 0x4c, 0x45, 0x42,
  0x6f, 0x68, 0x61, 0x66, 0x73, 0x74, 0x7d, 0x7a, 0x89, 0x8e, 0x87, 0x80,
  0x95, 0x92, 0x9b, 0x9c, 0xb1, 0xb6, 0xbf, 0xb8, 0xad, 0xaa, 0xa3, 0xa4,
  0xf9, 0xfe, 0xf7, 0xf0, 0xe5, 0xe2, 0xeb, 0xec, 0xc1, 0xc6, 0xcf, 0xc8,
  0xdd, 0xda, 0xd3, 0xd4, 0x69, 0x6e, 0x67, 0x60, 0x75, 0x72, 0x7b, 0x7c,
  0x51, 0x56, 0x5f, 0x58, 0x4d, 0x4a, 0x43, 0x44, 0x19, 0x1e, 0x17, 0x10,
  0x05, 0x02, 0x0b, 0x0c, 0x21, 0x26, 0x2f, 0x28, 0x3d, 0x3a, 0x33, 0x34,
  0x4e, 0x49, 0x40, 0x47, 0x52, 0x55, 0x5c, 0x5b, 0x76, 0x71, 0x78, 0x7f,
  0x6a, 0x6d, 0x64, 0x63, 0x3e, 0x39, 0x30, 0x37, 0x22, 0x25, 0x2c, 0x2b,
  0x06, 0x01, 0x08, 0x0f, 0x1a, 0x1d, 0x14, 0x13, 0xae, 0xa9, 0xa0, 0xa7,
  0xb2, 0xb5, 0xbc, 0xbb, 0x96, 0x91, 0x98, 0x9f, 0x8a, 0x8d, 0x84, 0x83,
  0xde, 0xd9, 0xd0, 0xd7, 0xc2, 0xc5, 0xcc, 0xcb, 0xe6, 0xe1, 0xe8, 0xef,
  0xfa, 0xfd, 0xf4, 0xf3]

/-- `CatProtocol.crc8`: `crc = 0; for byte in data: crc = TABLE[(crc ^ byte) & 0xff];
return crc & 0xff`. -/
def crc8 (data : List Nat) : Nat :=
  (data.foldl (fun crc byte => CRC8_TABLE.getD ((crc ^^^ byte) &&& 0xff) 0) 0) &&& 0xff

/-- `CatProtocol.bytes_from_int`'s while-loop: emit the low byte of `i` while
`i != 0` and fewer than `length` bytes have been emitted. -/
def bytesFromIntAux : Nat → Nat → List Nat
  | _, 0 => []
  | i, fuel + 1 => if i = 0 then [] else (i &&& 0xff) :: bytesFromIntAux (i >>> 8) fuel

/-- `CatProtocol.bytes_from_int(i, length, big_endian)`: little-endian digits of
`i`, zero-padded to `length` bytes, reversed when `big_endian`. -/
def bytes_from_int (i : Nat) (length : Nat) (big_endian : Bool) : List Nat :=
  let r := bytesFromIntAux i length
  let r := r ++ List.replicate (length - r.length) 0
  if big_endian then r.reverse else r

/-- `CatPrinter.make(command, payload, cmd_type)`: preamble `0x51 0x78`, command
byte, type byte, 2-byte little-endian payload length, payload, `crc8(payload)`,
terminator `0xff`. -/
def make (command : Nat) (payload : List Nat) (cmd_type : Nat) : List Nat :=
  [0x51, 0x78, command, cmd_type, payload.length &&& 0xff, payload.length >>> 8]
    ++ payload ++ [crc8 payload, 0xff]

/-- `CatProtocol.CommandType.TRANSFER`. -/
def TRANSFER : Nat := 0

/-- `CatProtocol.CommandType.RESPONSE`. -/
def RESPONSE : Nat := 1

/-- `CatPrinter.pause_cmd` (hard-coded constant from `__init__`). -/
def pause_cmd : List Nat := [0x51, 0x78, 0xa3, 0x01, 0x01, 0x00, 0x10, 0x70, 0xff]

/-- `CatPrinter.resume_cmd` (hard-coded constant from `__init__`). -/
def resume_cmd : List Nat := [0x51, 0x78, 0xa3, 0x01, 0x01, 0x00, 0x00, 0x00, 0xff]

lemma and_255_eq_mod (n : Nat) : n &&& 255 = n % 256 :=
  Nat.and_pow_two_sub_one_eq_mod n 8

lemma shiftRight_8_eq_div (n : Nat) : n >>> 8 = n / 256 := by
  rw [Nat.shiftRight_eq_div_pow]

lemma make_length (c t : Nat) (p : List Nat) : (make c p t).length = p.length + 8 := by
  simp [make]

/-- C1: `make` produces exactly preamble, command byte, type byte, 2-byte
little-endian length field, payload, `crc8(payload)`, terminator `0xff`; its
length is `payload length + 8`, its length field recombines to the payload
length, and its final byte is `0xff`. -/
theorem make_frame_layout (cmd ty : Nat) (payload : List Nat)
    (_hc : cmd ≤ 255) (_ht : ty ≤ 255) (hlen : payload.length ≤ 65535) :
    make cmd payload ty =
      [0x51, 0x78, cmd, ty, payload.length % 256, payload.length / 256]
        ++ payload ++ [crc8 payload, 0xff]
    ∧ (make cmd payload ty).length = payload.length + 8
    ∧ (make cmd payload ty).getD 4 0 + 256 * (make cmd payload ty).getD 5 0
        = payload.length
    ∧ (make cmd payload ty).getD 5 0 ≤ 255
    ∧ (make cmd payload ty).getLast? = some 0xff := by
  refine ⟨?_, make_length cmd ty payload, ?_, ?_, ?_⟩
  · simp [make, and_255_eq_mod, shiftRight_8_eq_div]
  · simp [make, and_255_eq_mod, shiftRight_8_eq_div]
    omega
  · simp [make, shiftRight_8_eq_div]
    omega
  · have : make cmd payload ty =
        ([0x51, 0x78, cmd, ty, payload.length &&& 0xff, payload.length >>> 8]
          ++ payload ++ [crc8 payload]) ++ [0xff] := by
      simp [make]
    rw [this, List.getLast?_concat]

/-- Witness for C1 at a concrete frame. -/
theorem make_frame_layout_witness :
    make 0xa2 [1, 2, 3] 0 =
      [0x51, 0x78, 0xa2, 0, 3, 0] ++ [1, 2, 3] ++ [crc8 [1, 2, 3], 0xff]
    ∧ (make 0xa2 [1, 2, 3] 0).length = 3 + 8
    ∧ (make 0xa2 [1, 2, 3] 0).getD 4 0 + 256 * (make 0xa2 [1, 2, 3] 0).getD 5 0 = 3
    ∧ (make 0xa2 [1, 2, 3] 0).getD 5 0 ≤ 255
    ∧ (make 0xa2 [1, 2, 3] 0).getLast? = some 0xff := by
  have h := make_frame_layout 0xa2 0 [1, 2, 3] (by decide) (by decide) (by decide)
  simpa using h

/-- C10: the hard-coded pause and resume constants are exactly the frames
`make(GET_DEVICE_STATE, [0x10], RESPONSE)` and `make(GET_DEVICE_STATE, [0x00],
RESPONSE)`, and their checksum bytes are `crc8` of their 1-byte payloads. -/
theorem pause_resume_constants_wellformed :
    pause_cmd = make 0xa3 [0x10] RESPONSE
    ∧ resume_cmd = make 0xa3 [0x00] RESPONSE
    ∧ crc8 [0x10] = 0x70 ∧ crc8 [0x00] = 0x00
    ∧ pause_cmd.getD 7 0 = 0x70 ∧ resume_cmd.getD 7 0 = 0x00 := by
  decide

/-! ## Transport buffer (`CatPrinter.pend` / `flush` / `send`)

The mutable printer state is `{buffer, writes, mtu}`: `buffer` is the logical
content of the fixed-size `bytearray` (its first `buffer_size` bytes), `writes`
is the ordered list of byte sequences handed to the sink (`self.write`), and
`mtu` is the buffer capacity (`self.mtu`, set to 200 in `__init__` and never
changed). -/

structure PState where
  buffer : List Nat
  writes : List (List Nat)
  mtu : Nat
  deriving Repr, DecidableEq

/-- The state built by `CatPrinter.__init__`: `mtu = 200`, empty buffer
(`buffer_size = 0`), nothing written yet. -/
def initState : PState := { buffer := [], writes := [], mtu := 200 }

/-- `CatPrinter.pend(data)`: copy `data` into the `bytearray` starting at
`buffer_size`.  The `bytearray` has fixed size `mtu`, so an assignment at an
index `≥ mtu` raises `IndexError`; that failure is `none`. -/
def pend (s : PState) (data : List Nat) : Option PState :=
  if s.buffer.length + data.length ≤ s.mtu then
    some { s with buffer := s.buffer ++ data }
  else
    none

/-- `CatPrinter.flush()`: no-op when `buffer_size == 0`; otherwise hand the
buffered bytes to the sink as one write and reset `buffer_size` to 0.  (The
pause-wait loop is the identity: `state['pause']` is never set in the program.
The inter-write `asyncio.sleep` has no effect on this state.) -/
def flush (s : PState) : PState :=
  if s.buffer.length = 0 then s
  else { s with buffer := [], writes := s.writes ++ [s.buffer] }

/-- `CatPrinter.send(data)`: flush first when the append would exceed `mtu`,
then `pend` the data. -/
def send (s : PState) (data : List Nat) : Option PState :=
  if s.buffer.length + data.length > s.mtu then pend (flush s) data
  else pend s data

lemma flush_buffer_empty (s : PState) : (flush s).buffer = [] := by
  unfold flush
  split
  · next h => simp_all [List.length_eq_zero]
  · rfl

lemma flush_writes (s : PState) :
    (flush s).writes = s.writes ++ (if s.buffer = [] then [] else [s.buffer]) := by
  unfold flush
  split
  · next h => simp_all [List.length_eq_zero]
  · next h =>
    have : ¬s.buffer = [] := by
      intro he; exact h (by simp [he])
    simp [this]

lemma flush_mtu (s : PState) : (flush s).mtu = s.mtu := by
  unfold flush; split <;> rfl

lemma flush_of_empty (s : PState) (h : s.buffer = []) : flush s = s := by
  unfold flush; simp [h]

lemma flush_nonempty (s : PState) (h : ¬s.buffer = []) :
    flush s = { buffer := [], writes := s.writes ++ [s.buffer], mtu := s.mtu } := by
  unfold flush
  rw [if_neg (by simpa [List.length_eq_zero] using h)]

lemma send_small (s : PState) (data : List Nat)
    (h : s.buffer.length + data.length ≤ s.mtu) :
    send s data = some { s with buffer := s.buffer ++ data } := by
  unfold send pend
  rw [if_neg (by omega), if_pos h]

lemma send_overflow (s : PState) (data : List Nat)
    (hfit : data.length ≤ s.mtu) (hover : s.buffer.length + data.length > s.mtu) :
    send s data
      = some { buffer := data, writes := (flush s).writes, mtu := s.mtu } := by
  unfold send pend
  rw [if_pos hover, flush_buffer_empty, flush_mtu, if_pos (by simpa using hfit)]
  simp [flush_buffer_empty, flush_mtu]

/-- Counterexample for C2: a chunk longer than the capacity is never stored;
`send` overflows the fixed-size buffer (an `IndexError` in the Python code)
instead of completing with the chunk in the emptied buffer. -/
theorem send_oversize_chunk_fails :
    send initState (List.replicate 201 0) = none := by
  decide

/-- C2 (amended: the enqueued chunk must fit the capacity on its own): if
appending the chunk would exceed the capacity, exactly one flush happens first
and the chunk is then stored into the emptied buffer; after any flush the
buffer is empty; flushing an empty buffer performs no sink write. -/
theorem send_flush_semantics (s : PState) (data : List Nat)
    (hfit : data.length ≤ s.mtu) :
    (s.buffer.length + data.length > s.mtu →
      send s data = some { buffer := data,
                           writes := s.writes ++ [s.buffer],
                           mtu := s.mtu })
    ∧ (flush s).buffer = []
    ∧ (s.buffer = [] → flush s = s) := by
  refine ⟨?_, flush_buffer_empty s, flush_of_empty s⟩
  intro hover
  have hne : ¬s.buffer = [] := by
    intro he
    rw [he] at hover
    simp at hover
    omega
  rw [send_overflow s data hfit hover, flush_writes]
  simp [hne]

/-- Witness for C2's amended theorem: a 150-byte chunk on a buffer holding 100
bytes triggers exactly one flush of those 100 bytes and is stored afterwards. -/
theorem send_flush_semantics_witness :
    ((100 : Nat) + 150 > 200 →
      send { buffer := List.replicate 100 7, writes := [], mtu := 200 }
          (List.replicate 150 9)
        = some { buffer := List.replicate 150 9,
                 writes := [[] ++ [List.replicate 100 7]].flatten,
                 mtu := 200 })
    ∧ (flush { buffer := List.replicate 100 7, writes := [], mtu := 200 }).buffer = []
    ∧ (({ buffer := List.replicate 100 7, writes := [], mtu := 200 } : PState).buffer = [] →
        flush { buffer := List.replicate 100 7, writes := [], mtu := 200 }
          = { buffer := List.replicate 100 7, writes := [], mtu := 200 }) := by
  have h := send_flush_semantics
    { buffer := List.replicate 100 7, writes := [], mtu := 200 }
    (List.replicate 150 9) (by simp)
  simpa using h

/-! ## C9: buffer-capacity invariant over operation sequences -/

/-- One externally driven transport-buffer operation. -/
inductive BufOp where
  | enq (data : List Nat)
  | doFlush
  deriving Repr

/-- Run one buffer operation (`enq` is `send`, `doFlush` is `flush`). -/
def runOp (s : PState) : BufOp → Option PState
  | .enq data => send s data
  | .doFlush => some (flush s)

/-- Run a sequence of buffer operations from a starting state, propagating
failure. -/
def runOps (s : PState) : List BufOp → Option PState
  | [] => some s
  | op :: ops => match runOp s op with
    | some s1 => runOps s1 ops
    | none => none

/-- Counterexample for C9: an enqueue of a 201-byte chunk (larger than the
default capacity 200) does not complete — the Python code raises `IndexError`
while copying into the fixed-size buffer. -/
theorem enqueue_oversize_incomplete :
    runOps initState [BufOp.enq (List.replicate 201 0)] = none := by
  decide

lemma send_preserves (s : PState) (data : List Nat)
    (_hinv : s.buffer.length ≤ s.mtu) (hfit : data.length ≤ s.mtu) :
    ∃ s1, send s data = some s1 ∧ s1.buffer.length ≤ s1.mtu ∧ s1.mtu = s.mtu := by
  by_cases hover : s.buffer.length + data.length > s.mtu
  · exact ⟨{ buffer := data, writes := (flush s).writes, mtu := s.mtu },
      send_overflow s data hfit hover, by simpa using hfit, rfl⟩
  · exact ⟨{ s with buffer := s.buffer ++ data }, send_small s data (by omega),
      by simp; omega, by simp⟩

lemma runOps_preserves (ops : List BufOp) (s : PState)
    (hinv : s.buffer.length ≤ s.mtu)
    (hfit : ∀ data, BufOp.enq data ∈ ops → data.length ≤ s.mtu) :
    ∃ s1, runOps s ops = some s1 ∧ s1.buffer.length ≤ s1.mtu ∧ s1.mtu = s.mtu := by
  induction ops generalizing s with
  | nil => exact ⟨s, rfl, hinv, rfl⟩
  | cons op ops ih =>
    cases op with
    | enq data =>
      obtain ⟨s1, hs1, hinv1, hmtu1⟩ :=
        send_preserves s data hinv (hfit data (by simp))
      obtain ⟨s2, hs2, hinv2, hmtu2⟩ := ih s1 hinv1
        (fun d hd => hmtu1 ▸ hfit d (List.mem_cons_of_mem _ hd))
      exact ⟨s2, by simp [runOps, runOp, hs1, hs2], hinv2, hmtu2.trans hmtu1⟩
    | doFlush =>
      obtain ⟨s2, hs2, hinv2, hmtu2⟩ := ih (flush s)
        (by simp [flush_buffer_empty])
        (fun d hd => (flush_mtu s) ▸ hfit d (List.mem_cons_of_mem _ hd))
      exact ⟨s2, by simp [runOps, runOp, hs2], hinv2, hmtu2.trans (flush_mtu s)⟩

/-- C9 (amended: each enqueued chunk fits the capacity on its own): any
sequence of enqueue/flush operations starting from the freshly constructed
state completes, and the fill cursor never exceeds the capacity — every
intermediate and final state satisfies `buffer.length ≤ mtu`. -/
theorem buffer_invariant (ops : List BufOp)
    (hfit : ∀ data, BufOp.enq data ∈ ops → data.length ≤ 200) :
    ∀ pre suf, ops = pre ++ suf →
      ∃ s1, runOps initState pre = some s1 ∧ s1.buffer.length ≤ 200 := by
  intro pre suf hsplit
  have hfit1 : ∀ data, BufOp.enq data ∈ pre → data.length ≤ initState.mtu := by
    intro d hd
    exact hfit d (by rw [hsplit]; exact List.mem_append_left _ hd)
  obtain ⟨s1, hs1, hinv, hmtu⟩ := runOps_preserves pre initState (by simp [initState]) hfit1
  have : s1.mtu = 200 := by simpa [initState] using hmtu
  exact ⟨s1, hs1, this ▸ hinv⟩

/-- Witness for C9's amended theorem at a concrete operation sequence. -/
theorem buffer_invariant_witness :
    ∃ s1, runOps initState [BufOp.enq (List.replicate 150 1), BufOp.doFlush]
        = some s1 ∧ s1.buffer.length ≤ 200 := by
  have h := buffer_invariant
    [BufOp.enq (List.replicate 150 1), BufOp.doFlush]
    (by intro d hd; simp at hd; simp [hd])
    [BufOp.enq (List.replicate 150 1), BufOp.doFlush] [] (by simp)
  exact h

/-! ## Printer session (`CatPrinter` command methods, `prepare`, `finish`)

Each command method of `CatPrinter` sends one byte sequence; the constants
below transcribe the `make(...)` call (or raw byte constant) of each method. -/

/-- Frame sent by `CatPrinter.get_device_state`. -/
def get_device_state_cmd : List Nat := make 0xa3 (bytes_from_int 0x00 1 false) TRANSFER

/-- Frame sent by `CatPrinter.apply_energy`. -/
def apply_energy_cmd : List Nat := make 0xbe (bytes_from_int 0x01 1 false) TRANSFER

/-- Frame sent by `CatPrinter.update_device`. -/
def update_device_cmd : List Nat := make 0xa9 (bytes_from_int 0x00 1 false) TRANSFER

/-- Frame sent by `CatPrinter.set_dpi` (always payload `bytes_from_int(50)`). -/
def set_dpi_cmd : List Nat := make 0xa4 (bytes_from_int 50 1 false) TRANSFER

/-- Frame sent by `CatPrinter.start_lattice`. -/
def start_lattice_cmd : List Nat :=
  make 0xa6 [0xaa, 0x55, 0x17, 0x38, 0x44, 0x5f, 0x5f, 0x5f, 0x44, 0x38, 0x2c] TRANSFER

/-- Frame sent by `CatPrinter.end_lattice`. -/
def end_lattice_cmd : List Nat :=
  make 0xa6 [0xaa, 0x55, 0x17, 0x00, 0x00, 0x00, 0x00, 0x00, 0x00, 0x00, 0x17] TRANSFER

/-- Frame sent by `CatPrinter.set_speed(value)`. -/
def set_speed_cmd (value : Nat) : List Nat := make 0xbd (bytes_from_int value 1 false) TRANSFER

/-- Frame sent by `CatPrinter.set_energy(value)`. -/
def set_energy_cmd (value : Nat) : List Nat := make 0xaf (bytes_from_int value 2 false) TRANSFER

/-- Frame sent by `CatPrinter.feed(points)`. -/
def feed_cmd (points : Nat) : List Nat := make 0xa1 (bytes_from_int points 2 false) TRANSFER

/-- Raw byte constant sent by `CatPrinter.prepare_camera` (not built by
`make`). -/
def prepare_camera_cmd : List Nat := [0x51, 0x78, 0xbc, 0x00, 0x01, 0x02, 0x01, 0x2d, 0xff]

/-- `CatPrinter.prepare(speed, energy)`: flush, then the eight command sends in
the order of the source, then flush. -/
def prepare (s : PState) (speed energy : Nat) : Option PState := do
  let s1 ← send (flush s) get_device_state_cmd
  let s2 ← send s1 prepare_camera_cmd
  let s3 ← send s2 set_dpi_cmd
  let s4 ← send s3 (set_speed_cmd speed)
  let s5 ← send s4 (set_energy_cmd energy)
  let s6 ← send s5 apply_energy_cmd
  let s7 ← send s6 update_device_cmd
  let s8 ← send s7 start_lattice_cmd
  pure (flush s8)

/-- `CatPrinter.finish(extra_feed)`: flush, lattice end, `set_speed(8)`,
`feed(extra_feed)`, device-state query, flush. -/
def finish (s : PState) (extra_feed : Nat) : Option PState := do
  let s1 ← send (flush s) end_lattice_cmd
  let s2 ← send s1 (set_speed_cmd 8)
  let s3 ← send s2 (feed_cmd extra_feed)
  let s4 ← send s3 get_device_state_cmd
  pure (flush s4)

/-- The command sequence of `prepare`, in source order. -/
def prepareCmds (speed energy : Nat) : List (List Nat) :=
  [get_device_state_cmd, prepare_camera_cmd, set_dpi_cmd, set_speed_cmd speed,
   set_energy_cmd energy, apply_energy_cmd, update_device_cmd, start_lattice_cmd]

/-- The command sequence of `finish`, in source order. -/
def finishCmds (extra_feed : Nat) : List (List Nat) :=
  [end_lattice_cmd, set_speed_cmd 8, feed_cmd extra_feed, get_device_state_cmd]

lemma bytesFromIntAux_length (i fuel : Nat) : (bytesFromIntAux i fuel).length ≤ fuel := by
  induction fuel generalizing i with
  | zero => simp [bytesFromIntAux]
  | succ n ih =>
    unfold bytesFromIntAux
    split
    · simp
    · simpa using ih (i >>> 8)

lemma bytes_from_int_length (i len : Nat) (be : Bool) :
    (bytes_from_int i len be).length = len := by
  have h := bytesFromIntAux_length i len
  unfold bytes_from_int
  split <;> simp <;> omega

lemma prepareCmds_total (speed energy : Nat) :
    ((prepareCmds speed energy).map List.length).sum = 83 := by
  simp [prepareCmds, get_device_state_cmd, prepare_camera_cmd, set_dpi_cmd,
    set_speed_cmd, set_energy_cmd, apply_energy_cmd, update_device_cmd,
    start_lattice_cmd, make_length, bytes_from_int_length]

lemma finishCmds_total (extra_feed : Nat) :
    ((finishCmds extra_feed).map List.length).sum = 47 := by
  simp [finishCmds, end_lattice_cmd, set_speed_cmd, feed_cmd,
    get_device_state_cmd, make_length, bytes_from_int_length]

/-- Sequential sends, as performed by the phase operations. -/
def sendAll (s : PState) : List (List Nat) → Option PState
  | [] => some s
  | c :: cs => match send s c with
    | some s1 => sendAll s1 cs
    | none => none

lemma sendAll_small (cmds : List (List Nat)) (s : PState)
    (h : s.buffer.length + (cmds.map List.length).sum ≤ s.mtu) :
    sendAll s cmds = some { s with buffer := s.buffer ++ cmds.flatten } := by
  induction cmds generalizing s with
  | nil => simp [sendAll]
  | cons c cs ih =>
    simp only [List.map_cons, List.sum_cons] at h
    rw [sendAll, send_small s c (by omega)]
    have h2 := ih { s with buffer := s.buffer ++ c } (by simp; omega)
    simpa [List.append_assoc] using h2

lemma prepare_of_sendAll (s X : PState) (speed energy : Nat)
    (h : sendAll (flush s) (prepareCmds speed energy) = some X) :
    prepare s speed energy = some (flush X) := by
  rcases h1 : send (flush s) get_device_state_cmd with _ | s1
  · simp [sendAll, prepareCmds, h1] at h
  rcases h2 : send s1 prepare_camera_cmd with _ | s2
  · simp [sendAll, prepareCmds, h1, h2] at h
  rcases h3 : send s2 set_dpi_cmd with _ | s3
  · simp [sendAll, prepareCmds, h1, h2, h3] at h
  rcases h4 : send s3 (set_speed_cmd speed) with _ | s4
  · simp [sendAll, prepareCmds, h1, h2, h3, h4] at h
  rcases h5 : send s4 (set_energy_cmd energy) with _ | s5
  · simp [sendAll, prepareCmds, h1, h2, h3, h4, h5] at h
  rcases h6 : send s5 apply_energy_cmd with _ | s6
  · simp [sendAll, prepareCmds, h1, h2, h3, h4, h5, h6] at h
  rcases h7 : send s6 update_device_cmd with _ | s7
  · simp [sendAll, prepareCmds, h1, h2, h3, h4, h5, h6, h7] at h
  rcases h8 : send s7 start_lattice_cmd with _ | s8
  · simp [sendAll, prepareCmds, h1, h2, h3, h4, h5, h6, h7, h8] at h
  simp [sendAll, prepareCmds, h1, h2, h3, h4, h5, h6, h7, h8] at h
  simp [prepare, h1, h2, h3, h4, h5, h6, h7, h8, h]

lemma finish_of_sendAll (s X : PState) (extra_feed : Nat)
    (h : sendAll (flush s) (finishCmds extra_feed) = some X) :
    finish s extra_feed = some (flush X) := by
  rcases h1 : send (flush s) end_lattice_cmd with _ | s1
  · simp [sendAll, finishCmds, h1] at h
  rcases h2 : send s1 (set_speed_cmd 8) with _ | s2
  · simp [sendAll, finishCmds, h1, h2] at h
  rcases h3 : send s2 (feed_cmd extra_feed) with _ | s3
  · simp [sendAll, finishCmds, h1, h2, h3] at h
  rcases h4 : send s3 get_device_state_cmd with _ | s4
  · simp [sendAll, finishCmds, h1, h2, h3, h4] at h
  simp [sendAll, finishCmds, h1, h2, h3, h4] at h
  simp [finish, h1, h2, h3, h4, h]

lemma prepare_run (s : PState) (speed energy : Nat)
    (hm : s.mtu = 200) :
    prepare s speed energy
      = some { buffer := [],
               writes := (flush s).writes ++ [(prepareCmds speed energy).flatten],
               mtu := 200 } := by
  have hfit : (flush s).buffer.length + ((prepareCmds speed energy).map List.length).sum
      ≤ (flush s).mtu := by
    rw [flush_buffer_empty, flush_mtu, hm, prepareCmds_total]
    simp
  have hrun := prepare_of_sendAll s _ speed energy (sendAll_small _ _ hfit)
  have hjoin : (prepareCmds speed energy).flatten.length = 83 := by
    rw [List.length_flatten, prepareCmds_total]
  have hne : (prepareCmds speed energy).flatten ≠ [] := by
    intro he
    rw [he] at hjoin
    simp at hjoin
  rw [flush_buffer_empty, flush_mtu, hm] at hrun
  rw [hrun, flush_nonempty _ (by simpa using hne)]
  simp

lemma finish_run (s : PState) (extra_feed : Nat)
    (hm : s.mtu = 200) :
    finish s extra_feed
      = some { buffer := [],
               writes := (flush s).writes ++ [(finishCmds extra_feed).flatten],
               mtu := 200 } := by
  have hfit : (flush s).buffer.length + ((finishCmds extra_feed).map List.length).sum
      ≤ (flush s).mtu := by
    rw [flush_buffer_empty, flush_mtu, hm, finishCmds_total]
    simp
  have hrun := finish_of_sendAll s _ extra_feed (sendAll_small _ _ hfit)
  have hjoin : (finishCmds extra_feed).flatten.length = 47 := by
    rw [List.length_flatten, finishCmds_total]
  have hne : (finishCmds extra_feed).flatten ≠ [] := by
    intro he
    rw [he] at hjoin
    simp at hjoin
  rw [flush_buffer_empty, flush_mtu, hm] at hrun
  rw [hrun, flush_nonempty _ (by simpa using hne)]
  simp

/-- C4: for every speed, energy and extra-feed argument, `prepare` hands the
sink exactly: the pending buffer (initial flush, only when non-empty), then the
eight commands get-device-state, camera-preparation, set-DPI, set-speed(speed),
set-energy(energy), apply-energy, update-device, lattice-start, concatenated
in exactly this order as the final flush's single write — and nothing else;
`finish` likewise emits exactly lattice-end, set-speed(8), feed(extra),
get-device-state between its two flushes. -/
theorem prepare_finish_order (s : PState) (speed energy extra_feed : Nat)
    (hm : s.mtu = 200) :
    prepare s speed energy
      = some { buffer := [],
               writes := s.writes ++ (if s.buffer = [] then [] else [s.buffer])
                 ++ [get_device_state_cmd ++ prepare_camera_cmd ++ set_dpi_cmd
                     ++ set_speed_cmd speed ++ set_energy_cmd energy
                     ++ apply_energy_cmd ++ update_device_cmd ++ start_lattice_cmd],
               mtu := 200 }
    ∧ finish s extra_feed
      = some { buffer := [],
               writes := s.writes ++ (if s.buffer = [] then [] else [s.buffer])
                 ++ [end_lattice_cmd ++ set_speed_cmd 8 ++ feed_cmd extra_feed
                     ++ get_device_state_cmd],
               mtu := 200 } := by
  constructor
  · rw [prepare_run s speed energy hm, flush_writes]
    simp [prepareCmds, List.append_assoc]
  · rw [finish_run s extra_feed hm, flush_writes]
    simp [finishCmds, List.append_assoc]

/-- Witness for C4: the fresh printer state, speed 35, energy 8000, extra feed
50 (the CLI defaults). -/
theorem prepare_finish_order_witness :
    prepare initState 35 8000
      = some { buffer := [],
               writes := ([] : List (List Nat)) ++ []
                 ++ [get_device_state_cmd ++ prepare_camera_cmd ++ set_dpi_cmd
                     ++ set_speed_cmd 35 ++ set_energy_cmd 8000
                     ++ apply_energy_cmd ++ update_device_cmd ++ start_lattice_cmd],
               mtu := 200 }
    ∧ finish initState 50
      = some { buffer := [],
               writes := ([] : List (List Nat)) ++ []
                 ++ [end_lattice_cmd ++ set_speed_cmd 8 ++ feed_cmd 50
                     ++ get_device_state_cmd],
               mtu := 200 } := by
  have h := prepare_finish_order initState 35 8000 50 rfl
  simpa [initState] using h

/-! ## C3: every sink byte sequence is a concatenation of well-formed frames -/

/-- A byte sequence is a well-formed frame when it is `make` of some command
byte, type byte and payload that fits the 2-byte length field — this is the
§4.2 layout together with the Frame invariant (length field = payload length,
checksum byte = `crc8` of the payload alone). -/
def isWellFormedFrame (bs : List Nat) : Prop :=
  ∃ c t p, c ≤ 255 ∧ t ≤ 255 ∧ p.length ≤ 65535 ∧ bs = make c p t

/-- Counterexample for C3: the fixed camera-preparation command is NOT a
well-formed frame: its length-field bytes are `0x01 0x02` (value 513) while
its payload region is the single byte `0x01`, and its checksum byte `0x2d`
differs from `crc8([0x01]) = 0x07`. -/
theorem camera_cmd_not_frame :
    ¬ isWellFormedFrame prepare_camera_cmd
    ∧ prepare_camera_cmd.getD 7 0 = 0x2d ∧ crc8 [0x01] = 0x07 := by
  refine ⟨?_, by decide, by decide⟩
  rintro ⟨c, t, p, _hc, _ht, _hp, heq⟩
  have hlen : prepare_camera_cmd.length = p.length + 8 := by
    rw [heq, make_length]
  have hp1 : p.length = 1 := by
    simp [prepare_camera_cmd] at hlen
    omega
  have h5 : prepare_camera_cmd.getD 5 0 = p.length >>> 8 := by
    rw [heq]
    simp [make]
  rw [hp1] at h5
  simp [prepare_camera_cmd] at h5

/-- C3 (amended: the camera-preparation command excepted): the single sink
write produced by `prepare` from an empty buffer is the concatenation, in
order, of the eight emitted commands, each of which is a well-formed frame
except the fixed raw camera-preparation constant. -/
theorem prepare_stream_frames (s : PState) (speed energy : Nat)
    (hm : s.mtu = 200) (hb : s.buffer = []) :
    prepare s speed energy
      = some { buffer := [],
               writes := s.writes ++ [(prepareCmds speed energy).flatten],
               mtu := 200 }
    ∧ ∀ c ∈ prepareCmds speed energy,
        c = prepare_camera_cmd ∨ isWellFormedFrame c := by
  constructor
  · rw [prepare_run s speed energy hm, flush_writes, hb]
    simp
  · intro c hc
    simp only [prepareCmds, List.mem_cons, List.not_mem_nil, or_false] at hc
    rcases hc with h | h | h | h | h | h | h | h
    · exact Or.inr ⟨0xa3, TRANSFER, bytes_from_int 0x00 1 false, by decide, by decide,
        by rw [bytes_from_int_length]; omega, h⟩
    · exact Or.inl h
    · exact Or.inr ⟨0xa4, TRANSFER, bytes_from_int 50 1 false, by decide, by decide,
        by rw [bytes_from_int_length]; omega, h⟩
    · exact Or.inr ⟨0xbd, TRANSFER, bytes_from_int speed 1 false, by decide, by decide,
        by rw [bytes_from_int_length]; omega, h⟩
    · exact Or.inr ⟨0xaf, TRANSFER, bytes_from_int energy 2 false, by decide, by decide,
        by rw [bytes_from_int_length]; omega, h⟩
    · exact Or.inr ⟨0xbe, TRANSFER, bytes_from_int 0x01 1 false, by decide, by decide,
        by rw [bytes_from_int_length]; omega, h⟩
    · exact Or.inr ⟨0xa9, TRANSFER, bytes_from_int 0x00 1 false, by decide, by decide,
        by rw [bytes_from_int_length]; omega, h⟩
    · exact Or.inr ⟨0xa6, TRANSFER,
        [0xaa, 0x55, 0x17, 0x38, 0x44, 0x5f, 0x5f, 0x5f, 0x44, 0x38, 0x2c],
        by decide, by decide, by decide, h⟩

/-- Witness for C3's amended theorem at the fresh printer state. -/
theorem prepare_stream_frames_witness :
    prepare initState 35 8000
      = some { buffer := [],
               writes := ([] : List (List Nat)) ++ [(prepareCmds 35 8000).flatten],
               mtu := 200 }
    ∧ ∀ c ∈ prepareCmds 35 8000,
        c = prepare_camera_cmd ∨ isWellFormedFrame c :=
  prepare_stream_frames initState 35 8000 rfl rfl

/-! ## Dithering (`ThermalPrinterCLI.apply_threshold_dither`)

Python floats are modelled by exact rationals; decimal literals such as
`0.2125` denote the exact rational `2125/10000`. -/

/-- Python `int()` applied to an exact rational: truncation toward zero. -/
def pyInt (q : ℚ) : ℤ := q.num.tdiv q.den

/-- The shared grayscale line `r * 0.2125 + g * 0.7154 + b * 0.0721`. -/
def lumaF (r g b : ℚ) : ℚ := r * 0.2125 + g * 0.7154 + b * 0.0721

/-- `ThermalPrinterCLI.apply_threshold_dither`: per RGBA quadruple, compute
`gray = int(r*0.2125 + g*0.7154 + b*0.0721)`, then `gray = 255 if gray > 128
else 0`, and write `[gray, gray, gray, a]`.  (On input whose length is not a
multiple of 4 the Python code raises while unpacking; such inputs do not
occur.) -/
def apply_threshold_dither : List Nat → List Nat
  | r :: g :: b :: a :: rest =>
    let gray : ℤ := pyInt (lumaF r g b)
    let v : Nat := if gray > 128 then 255 else 0
    v :: v :: v :: a :: apply_threshold_dither rest
  | _ => []

/-- The flat RGBA byte stream of a pixel list (4 bytes per pixel). -/
def flatRGBA (ps : List (Nat × Nat × Nat × Nat)) : List Nat :=
  ps.flatMap (fun p => [p.1, p.2.1, p.2.2.1, p.2.2.2])

/-- Per-pixel threshold classification in the spec's terms, amended with the
code's integer truncation: all three colour channels become 255 exactly when
the truncated luma exceeds 128 — equivalently when luma ≥ 129 — and 0
otherwise; alpha is passed through. -/
def thresholdPixel (p : Nat × Nat × Nat × Nat) : Nat × Nat × Nat × Nat :=
  let v : Nat := if 129 ≤ lumaF p.1 p.2.1 p.2.2.1 then 255 else 0
  (v, v, v, p.2.2.2)

lemma lumaF_nonneg (r g b : Nat) : 0 ≤ lumaF r g b := by
  unfold lumaF
  positivity

lemma pyInt_eq_floor (q : ℚ) (h : 0 ≤ q) : pyInt q = ⌊q⌋ := by
  rw [Rat.floor_def]
  exact Int.tdiv_eq_ediv (Rat.num_nonneg.mpr h) (by positivity)

lemma pyInt_gt_128_iff (q : ℚ) (h : 0 ≤ q) : 128 < pyInt q ↔ 129 ≤ q := by
  rw [pyInt_eq_floor q h, show ((128:ℤ) < ⌊q⌋ ↔ (129:ℤ) ≤ ⌊q⌋) from by omega,
    Int.le_floor]
  norm_num

lemma threshold_pixel_bridge (r g b : Nat) :
    (if 128 < pyInt (lumaF r g b) then (255:Nat) else 0)
      = (if 129 ≤ lumaF r g b then (255:Nat) else 0) := by
  rcases (pyInt_gt_128_iff _ (lumaF_nonneg r g b)) with ⟨h1, h2⟩
  by_cases h : 129 ≤ lumaF (r:ℚ) g b
  · rw [if_pos h, if_pos (h2 h)]
  · rw [if_neg h, if_neg (fun hc => h (h1 hc))]

lemma threshold_dither_map (ps : List (Nat × Nat × Nat × Nat)) :
    apply_threshold_dither (flatRGBA ps) = flatRGBA (ps.map thresholdPixel) := by
  induction ps with
  | nil => rfl
  | cons p rest ih =>
    obtain ⟨r, g, b, a⟩ := p
    simp only [flatRGBA, List.flatMap_cons, List.map_cons, List.cons_append,
      List.nil_append] at ih ⊢
    rw [apply_threshold_dither]
    simp only [thresholdPixel]
    rw [threshold_pixel_bridge r g b, ih]

/-- C7 (amended: the code truncates the luma to an integer before the
comparison, so the white condition is `⌊luma⌋ > 128`, i.e. `luma ≥ 129`): the
threshold ditherer maps each pixel independently, writes the same value — 255
when luma ≥ 129, else 0 — to all three colour channels, and passes the alpha
byte through unchanged. -/
theorem threshold_dither_truncated_luma (ps : List (Nat × Nat × Nat × Nat)) :
    apply_threshold_dither (flatRGBA ps) = flatRGBA (ps.map thresholdPixel) :=
  threshold_dither_map ps

/-- Counterexample for C7: the pixel (129, 128, 128) has luma 128.2125 > 128,
yet the code classifies it black (truncation gives 128, and 128 > 128 fails) —
the claim, as stated, requires white output 255. -/
theorem threshold_luma_above_128_black :
    lumaF 129 128 128 > 128
    ∧ apply_threshold_dither [129, 128, 128, 9] = [0, 0, 0, 9] := by
  constructor
  · norm_num [lumaF]
  · have h := threshold_dither_map [(129, 128, 128, 9)]
    simp only [flatRGBA, List.flatMap_cons, List.flatMap_nil, List.map_cons,
      List.map_nil, List.append_nil] at h
    rw [h]
    norm_num [thresholdPixel, lumaF]

/-- Counterexample for C8: the pixel (128, 128, 128) has luma exactly 128 (the
weights sum to 1), and the code classifies it BLACK (output 0), not white as
the claim states. -/
theorem threshold_luma_eq_128_black :
    lumaF 128 128 128 = 128
    ∧ apply_threshold_dither [128, 128, 128, 5] = [0, 0, 0, 5] := by
  constructor
  · norm_num [lumaF]
  · have h := threshold_dither_map [(128, 128, 128, 5)]
    simp only [flatRGBA, List.flatMap_cons, List.flatMap_nil, List.map_cons,
      List.map_nil, List.append_nil] at h
    rw [h]
    norm_num [thresholdPixel, lumaF]

/-- C8 (amended: a pixel at luma exactly 128 is classified BLACK — the boundary
is strict `>` on the truncated luma, with 128 itself falling on the black
side): wherever such a pixel occurs in the raster, the ditherer writes 0 to
its three colour channels. -/
theorem threshold_128_is_black (ps1 ps2 : List (Nat × Nat × Nat × Nat))
    (r g b a : Nat) (h128 : lumaF r g b = 128) :
    apply_threshold_dither (flatRGBA (ps1 ++ (r, g, b, a) :: ps2))
      = flatRGBA (ps1.map thresholdPixel)
        ++ 0 :: 0 :: 0 :: a :: flatRGBA (ps2.map thresholdPixel) := by
  rw [threshold_dither_map]
  simp only [List.map_append, List.map_cons, flatRGBA, List.flatMap_append,
    List.flatMap_cons]
  have hpx : thresholdPixel (r, g, b, a) = (0, 0, 0, a) := by
    simp only [thresholdPixel]
    rw [h128, if_neg (by norm_num)]
  rw [hpx]
  simp [flatRGBA]

/-- Witness for C8's amended theorem at the gray pixel (128,128,128). -/
theorem threshold_128_is_black_witness :
    apply_threshold_dither (flatRGBA ([] ++ (128, 128, 128, 7) :: []))
      = flatRGBA (([] : List (Nat × Nat × Nat × Nat)).map thresholdPixel)
        ++ 0 :: 0 :: 0 :: 7 :: flatRGBA (([] : List (Nat × Nat × Nat × Nat)).map thresholdPixel) := by
  exact threshold_128_is_black [] [] 128 128 128 7 (by norm_num [lumaF])

/-! ## Floyd–Steinberg dithering (`ThermalPrinterCLI.apply_floyd_steinberg_dither`) -/

/-- The per-pixel alpha-handling grayscale conversion at the top of
`apply_floyd_steinberg_dither`: for `alpha = a/255 < 1` blend each channel
toward white by `c += (255 - c) * (1 - alpha)`, otherwise (only `alpha = 1`
for byte alphas) `c *= alpha`; then take the luma. -/
def rgbaToGrayPixel (r g b a : Nat) : ℚ :=
  let alpha : ℚ := a / 255
  if alpha < 1 then
    let alpha_inv := 1 - alpha
    lumaF ((r : ℚ) + (255 - (r : ℚ)) * alpha_inv)
          ((g : ℚ) + (255 - (g : ℚ)) * alpha_inv)
          ((b : ℚ) + (255 - (b : ℚ)) * alpha_inv)
  else
    lumaF ((r : ℚ) * alpha) ((g : ℚ) * alpha) ((b : ℚ) * alpha)

/-- The `mono` list built by the first loop of `apply_floyd_steinberg_dither`. -/
def rgbaToMono : List Nat → List ℚ
  | r :: g :: b :: a :: rest => rgbaToGrayPixel r g b a :: rgbaToMono rest
  | _ => []

/-- Body of the Floyd–Steinberg double loop at pixel `(i, j)`, acting on
`(mono, p)`.  The always-true parts of the Python guards (`i >= 0`, `j >= 0`,
`i < width`, `j < height`, which hold for every loop index) are omitted; the
subtractions `width - 1`, `height - 1`, `p + width - 1` agree with Python's
integer arithmetic at every reachable index. -/
def fsStep (width height : Nat) (j i : Nat) (mp : Array ℚ × Nat) : Array ℚ × Nat :=
  let mono := mp.1
  let p := mp.2
  let m := mono.getD p 0
  let n : ℚ := if m > 128 then 255 else 0
  let o := m - n
  let mono := mono.setD p n
  let mono := if i < width - 1 then
      mono.setD (p + 1) (mono.getD (p + 1) 0 + o * 7 / 16) else mono
  let mono := if 1 ≤ i ∧ j < height - 1 then
      mono.setD (p + width - 1) (mono.getD (p + width - 1) 0 + o * 3 / 16) else mono
  let mono := if j < height - 1 then
      mono.setD (p + width) (mono.getD (p + width) 0 + o * 5 / 16) else mono
  let mono := if i < width - 1 ∧ j < height - 1 then
      mono.setD (p + width + 1) (mono.getD (p + width + 1) 0 + o * 1 / 16) else mono
  (mono, p + 1)

/-- The full Floyd–Steinberg pass: `for j in range(height): for i in
range(width): ...` with the running offset `p`. -/
def fsPass (width height : Nat) (mono : Array ℚ) : Array ℚ :=
  ((List.range height).foldl
    (fun mp j => (List.range width).foldl (fun mp2 i => fsStep width height j i mp2) mp)
    (mono, 0)).1

/-- The write-back loop: `gray = int(max(0, min(255, mono[i])))`, stored as
`[gray, gray, gray, 255]`. -/
def monoToRgba (mono : List ℚ) : List Nat :=
  mono.flatMap (fun m =>
    let gray := (pyInt (max 0 (min 255 m))).toNat
    [gray, gray, gray, 255])

/-- `ThermalPrinterCLI.apply_floyd_steinberg_dither(img_data, width, height)`. -/
def apply_floyd_steinberg_dither (img_data : List Nat) (width height : Nat) : List Nat :=
  monoToRgba (fsPass width height (rgbaToMono img_data).toArray).toList

/-- Follows the spec's words (§4.6 error-diffusion mode, C5): map each pixel to
a gray value by blending toward white in proportion to transparency
`t = 1 - a/255` and taking the luma. -/
def grayOfPixelSpec (r g b a : Nat) : ℚ :=
  let t : ℚ := 1 - (a : ℚ) / 255
  lumaF ((r : ℚ) + (255 - (r : ℚ)) * t)
        ((g : ℚ) + (255 - (g : ℚ)) * t)
        ((b : ℚ) + (255 - (b : ℚ)) * t)

/-- Spec-side grayscale conversion of the raster. -/
def monoSpec : List Nat → List ℚ
  | r :: g :: b :: a :: rest => grayOfPixelSpec r g b a :: monoSpec rest
  | _ => []

/-- Follows the spec's words (C5): visit pixel `(i, j)` at offset `p`, quantize
`n = 255 if m > 128 else 0`, and add `o = m - n` times 7/16, 3/16, 5/16, 1/16
to the right, next-row-left, next-row-same, next-row-right neighbours, each
only when that neighbour lies within raster bounds. -/
def fsStepSpec (width height : Nat) (j i : Nat) (mp : Array ℚ × Nat) : Array ℚ × Nat :=
  let mono := mp.1
  let p := mp.2
  let m := mono.getD p 0
  let n : ℚ := if m > 128 then 255 else 0
  let o := m - n
  let mono := mono.setD p n
  let mono := if i + 1 < width then
      mono.setD (p + 1) (mono.getD (p + 1) 0 + o * 7 / 16) else mono
  let mono := if 1 ≤ i ∧ j + 1 < height then
      mono.setD (p + width - 1) (mono.getD (p + width - 1) 0 + o * 3 / 16) else mono
  let mono := if j + 1 < height then
      mono.setD (p + width) (mono.getD (p + width) 0 + o * 5 / 16) else mono
  let mono := if i + 1 < width ∧ j + 1 < height then
      mono.setD (p + width + 1) (mono.getD (p + width + 1) 0 + o * 1 / 16) else mono
  (mono, p + 1)

/-- Spec-side error-diffusion pass in strict raster order. -/
def fsPassSpec (width height : Nat) (mono : Array ℚ) : Array ℚ :=
  ((List.range height).foldl
    (fun mp j => (List.range width).foldl (fun mp2 i => fsStepSpec width height j i mp2) mp)
    (mono, 0)).1

/-- Spec-side ditherer (C5's description end to end): grayscale with
alpha-toward-white blending, raster-order 4-neighbour error diffusion, output
clamped to [0, 255] and written to all three channels with alpha 255. -/
def floydSteinbergSpec (img_data : List Nat) (width height : Nat) : List Nat :=
  monoToRgba (fsPassSpec width height (monoSpec img_data).toArray).toList

lemma fsStep_eq_spec (width height j i : Nat) (mp : Array ℚ × Nat) :
    fsStep width height j i mp = fsStepSpec width height j i mp := by
  unfold fsStep fsStepSpec
  have hw : (i < width - 1) = (i + 1 < width) := by
    apply propext
    omega
  have hh : (j < height - 1) = (j + 1 < height) := by
    apply propext
    omega
  simp only [hw, hh]

lemma gray_eq_spec (r g b a : Nat) (ha : a ≤ 255) :
    rgbaToGrayPixel r g b a = grayOfPixelSpec r g b a := by
  unfold rgbaToGrayPixel grayOfPixelSpec
  by_cases h : ((a : ℚ) / 255) < 1
  · simp only [if_pos h]
  · have haq : ((a : ℚ) / 255) = 1 := by
      have h1 : ((a : ℚ) / 255) ≤ 1 := by
        rw [div_le_one (by norm_num)]
        exact_mod_cast ha
      have h2 := not_lt.mp h
      linarith
    rw [if_neg h, haq]
    unfold lumaF
    ring

lemma mono_eq_spec (img : List Nat) (h : ∀ x ∈ img, x ≤ 255) :
    rgbaToMono img = monoSpec img := by
  induction img using rgbaToMono.induct with
  | case1 r g b a rest ih =>
    rw [rgbaToMono, monoSpec, gray_eq_spec r g b a (h a (by simp)),
      ih (fun x hx => h x (by simp [hx]))]
  | case2 l hl =>
    match l, hl with
    | [], _ => rfl
    | [x], _ => rfl
    | [x, y], _ => rfl
    | [x, y, z], _ => rfl
    | x :: y :: z :: w :: rest, hl => exact (hl x y z w rest rfl).elim

/-- C5: the error-diffusion ditherer computes exactly the algorithm the spec
describes — alpha-toward-white grayscale conversion, strict raster-order
traversal, quantization at `m > 128`, 7/16-3/16-5/16-1/16 error distribution
guarded by raster bounds, and clamped opaque grayscale output — stated as
equality with the spec-side definition `floydSteinbergSpec` (over exact
rational arithmetic). -/
theorem floyd_steinberg_refines_spec (img_data : List Nat) (width height : Nat)
    (hbytes : ∀ x ∈ img_data, x ≤ 255) :
    apply_floyd_steinberg_dither img_data width height
      = floydSteinbergSpec img_data width height := by
  unfold apply_floyd_steinberg_dither floydSteinbergSpec fsPass fsPassSpec
  rw [mono_eq_spec img_data hbytes]
  have hfun :
      (fun (mp : Array ℚ × Nat) (j : Nat) =>
        (List.range width).foldl (fun mp2 i => fsStep width height j i mp2) mp)
      = (fun (mp : Array ℚ × Nat) (j : Nat) =>
        (List.range width).foldl (fun mp2 i => fsStepSpec width height j i mp2) mp) := by
    funext mp j
    congr 1
    funext mp2 i
    exact fsStep_eq_spec width height j i mp2
  rw [hfun]

/-- Witness for C5 at a concrete 2×2 raster. -/
theorem floyd_steinberg_refines_spec_witness :
    apply_floyd_steinberg_dither
        [0, 0, 0, 255, 255, 255, 255, 255, 100, 100, 100, 255, 200, 0, 50, 128] 2 2
      = floydSteinbergSpec
        [0, 0, 0, 255, 255, 255, 255, 255, 100, 100, 100, 255, 200, 0, 50, 128] 2 2 :=
  floyd_steinberg_refines_spec _ 2 2 (by decide)

/-! ## Bit packer (`ThermalPrinterCLI.rgba_to_bits` and the line split of
`bitmap_to_print_data`) -/

/-- First loop of `rgba_to_bits`: each RGBA quadruple becomes the 32-bit value
`r | (g << 8) | (b << 16) | (a << 24)`. -/
def rgbaToInts : List Nat → List Nat
  | r :: g :: b :: a :: rest =>
      (r ||| (g <<< 8) ||| (b <<< 16) ||| (a <<< 24)) :: rgbaToInts rest
  | _ => []

/-- Inner `for d in range(8)` loop of `rgba_to_bits` over one group of eight
pixel values: set bit `d` when `rgba_array[i] & 0xff < 128`. -/
def packGroup (pix : List Nat) : Nat :=
  (List.range 8).foldl
    (fun acc d => if (pix.getD d 0 &&& 0xff) < 128 then acc ||| (1 <<< d) else acc) 0

/-- Outer `for p in range(len(rgba_array) // 8)` loop: one byte per group of
eight consecutive pixels (a trailing partial group is dropped, as in the
Python index arithmetic). -/
def packBytesAux : List Nat → List Nat
  | a0 :: a1 :: a2 :: a3 :: a4 :: a5 :: a6 :: a7 :: rest =>
      packGroup [a0, a1, a2, a3, a4, a5, a6, a7] :: packBytesAux rest
  | _ => []

/-- `ThermalPrinterCLI.rgba_to_bits(rgba_data, width, height)` (the `width` and
`height` parameters are unused in the Python body). -/
def rgba_to_bits (rgba_data : List Nat) : List Nat :=
  packBytesAux (rgbaToInts rgba_data)

/-- The line-splitting step at the end of `bitmap_to_print_data`:
`bytes_per_line = width // 8` and `lines = [bits[y*bpl : (y+1)*bpl] for y in
range(height)]`. -/
def bitmap_lines (bits : List Nat) (width height : Nat) : List (List Nat) :=
  (List.range height).map (fun y => (bits.drop (y * (width / 8))).take (width / 8))

/-- `packGroup` over a list of per-pixel Booleans (bit `d` set iff entry `d`). -/
def packBools (bs : List Bool) : Nat :=
  (List.range 8).foldl
    (fun acc d => cond (bs.getD d false) (acc ||| (1 <<< d)) acc) 0

lemma packGroup_eq_packBools (x0 x1 x2 x3 x4 x5 x6 x7 : Nat) :
    packGroup [x0, x1, x2, x3, x4, x5, x6, x7]
      = packBools [decide ((x0 &&& 0xff) < 128), decide ((x1 &&& 0xff) < 128),
          decide ((x2 &&& 0xff) < 128), decide ((x3 &&& 0xff) < 128),
          decide ((x4 &&& 0xff) < 128), decide ((x5 &&& 0xff) < 128),
          decide ((x6 &&& 0xff) < 128), decide ((x7 &&& 0xff) < 128)] := by
  unfold packGroup packBools
  rw [(by decide : List.range 8 = [0, 1, 2, 3, 4, 5, 6, 7])]
  simp [List.foldl, Bool.cond_decide]

lemma packBools_testBit (b0 b1 b2 b3 b4 b5 b6 b7 : Bool) (d : Fin 8) :
    (packBools [b0, b1, b2, b3, b4, b5, b6, b7]).testBit d.val
      = [b0, b1, b2, b3, b4, b5, b6, b7].getD d.val false := by
  revert b0 b1 b2 b3 b4 b5 b6 b7 d
  decide

lemma byte0_of_rgba_int (r g b a : Nat) (hr : r ≤ 255) :
    (r ||| (g <<< 8) ||| (b <<< 16) ||| (a <<< 24)) &&& 0xff = r := by
  apply Nat.eq_of_testBit_eq
  intro k
  simp only [Nat.testBit_and, Nat.testBit_or, Nat.testBit_shiftLeft]
  by_cases hk : k < 8
  · have h255 : (255 : Nat).testBit k = true := by
      interval_cases k <;> decide
    have h8 : ¬ (8 ≤ k) := by omega
    have h16 : ¬ (16 ≤ k) := by omega
    have h24 : ¬ (24 ≤ k) := by omega
    simp [h255, h8, h16, h24]
  · have hpow : (256 : Nat) ≤ 2 ^ k := by
      calc (256 : Nat) = 2 ^ 8 := by norm_num
      _ ≤ 2 ^ k := Nat.pow_le_pow_right (by norm_num) (by omega)
    have h255 : (255 : Nat).testBit k = false :=
      Nat.testBit_lt_two_pow (by omega)
    have hrk : r.testBit k = false :=
      Nat.testBit_lt_two_pow (by omega)
    simp [h255, hrk]

lemma packBytesAux_length (ints : List Nat) :
    (packBytesAux ints).length = ints.length / 8 := by
  induction ints using packBytesAux.induct with
  | case1 a0 a1 a2 a3 a4 a5 a6 a7 rest ih =>
    rw [packBytesAux]
    simp only [List.length_cons, ih]
    omega
  | case2 l hl =>
    match l, hl with
    | [], _ => rfl
    | [x0], _ => simp [packBytesAux]
    | [x0, x1], _ => simp [packBytesAux]
    | [x0, x1, x2], _ => simp [packBytesAux]
    | [x0, x1, x2, x3], _ => simp [packBytesAux]
    | [x0, x1, x2, x3, x4], _ => simp [packBytesAux]
    | [x0, x1, x2, x3, x4, x5], _ => simp [packBytesAux]
    | [x0, x1, x2, x3, x4, x5, x6], _ => simp [packBytesAux]
    | x0 :: x1 :: x2 :: x3 :: x4 :: x5 :: x6 :: x7 :: rest, hl =>
      exact (hl x0 x1 x2 x3 x4 x5 x6 x7 rest rfl).elim

lemma rgbaToInts_length (rgba : List Nat) :
    (rgbaToInts rgba).length = rgba.length / 4 := by
  induction rgba using rgbaToInts.induct with
  | case1 r g b a rest ih =>
    rw [rgbaToInts]
    simp only [List.length_cons, ih]
    omega
  | case2 l hl =>
    match l, hl with
    | [], _ => rfl
    | [x], _ => simp [rgbaToInts]
    | [x, y], _ => simp [rgbaToInts]
    | [x, y, z], _ => simp [rgbaToInts]
    | x :: y :: z :: w :: rest, hl => exact (hl x y z w rest rfl).elim

lemma packBytesAux_testBit (ints : List Nat) :
    ∀ p d : Nat, p < ints.length / 8 → d < 8 →
      ((packBytesAux ints).getD p 0).testBit d
        = decide ((ints.getD (8 * p + d) 0 &&& 0xff) < 128) := by
  induction ints using packBytesAux.induct with
  | case1 a0 a1 a2 a3 a4 a5 a6 a7 rest ih =>
    intro p d hp hd
    cases p with
    | zero =>
      rw [packBytesAux]
      simp only [List.getD_cons_zero, Nat.mul_zero, Nat.zero_add]
      rw [packGroup_eq_packBools]
      rw [packBools_testBit _ _ _ _ _ _ _ _ ⟨d, hd⟩]
      interval_cases d <;> rfl
    | succ q =>
      rw [packBytesAux]
      simp only [List.getD_cons_succ, List.length_cons] at hp ⊢
      have h8 : 8 * (q + 1) + d = 8 * q + d + 1 + 1 + 1 + 1 + 1 + 1 + 1 + 1 := by omega
      rw [h8]
      simp only [List.getD_cons_succ]
      exact ih q d (by omega) hd
  | case2 l hl =>
    rcases l with _ | ⟨x0, _ | ⟨x1, _ | ⟨x2, _ | ⟨x3, _ | ⟨x4, _ | ⟨x5, _ | ⟨x6, _ | ⟨x7, rest⟩⟩⟩⟩⟩⟩⟩⟩
    · intro p d hp hd; simp only [List.length_cons, List.length_nil] at hp; omega
    · intro p d hp hd; simp only [List.length_cons, List.length_nil] at hp; omega
    · intro p d hp hd; simp only [List.length_cons, List.length_nil] at hp; omega
    · intro p d hp hd; simp only [List.length_cons, List.length_nil] at hp; omega
    · intro p d hp hd; simp only [List.length_cons, List.length_nil] at hp; omega
    · intro p d hp hd; simp only [List.length_cons, List.length_nil] at hp; omega
    · intro p d hp hd; simp only [List.length_cons, List.length_nil] at hp; omega
    · intro p d hp hd; simp only [List.length_cons, List.length_nil] at hp; omega
    · exact (hl x0 x1 x2 x3 x4 x5 x6 x7 rest rfl).elim

lemma rgbaToInts_getD (rgba : List Nat) :
    ∀ k : Nat, k < rgba.length / 4 → (∀ x ∈ rgba, x ≤ 255) →
      (rgbaToInts rgba).getD k 0 &&& 0xff = rgba.getD (4 * k) 0 := by
  induction rgba using rgbaToInts.induct with
  | case1 r g b a rest ih =>
    intro k hk hb
    cases k with
    | zero =>
      rw [rgbaToInts]
      simp only [List.getD_cons_zero, Nat.mul_zero]
      exact byte0_of_rgba_int r g b a (hb r (by simp))
    | succ q =>
      rw [rgbaToInts]
      simp only [List.getD_cons_succ, List.length_cons] at hk ⊢
      have h4 : 4 * (q + 1) = 4 * q + 1 + 1 + 1 + 1 := by omega
      rw [h4]
      simp only [List.getD_cons_succ]
      exact ih q (by omega) (fun x hx => hb x (by simp [hx]))
  | case2 l hl =>
    rcases l with _ | ⟨x, _ | ⟨y, _ | ⟨z, _ | ⟨w, rest⟩⟩⟩⟩
    · intro k hk hb; simp only [List.length_cons, List.length_nil] at hk; omega
    · intro k hk hb; simp only [List.length_cons, List.length_nil] at hk; omega
    · intro k hk hb; simp only [List.length_cons, List.length_nil] at hk; omega
    · intro k hk hb; simp only [List.length_cons, List.length_nil] at hk; omega
    · exact (hl x y z w rest rfl).elim

/-- C6: for a raster whose pixel count is a multiple of 8, `rgba_to_bits`
produces one byte per 8 consecutive pixels in raster order, with bit `d`
(LSB-first) set exactly when that pixel's lowest-order channel byte (the red
byte) is < 128; the split step yields `height` lines of exactly `width / 8`
bytes each; an 8-pixel all-white group packs to 0x00 and an 8-pixel all-black
group to 0xFF. -/
theorem rgba_to_bits_spec (rgba : List Nat) (width height : Nat)
    (hlen : rgba.length = 4 * (width * height))
    (h8 : width * height % 8 = 0)
    (hbytes : ∀ x ∈ rgba, x ≤ 255) :
    (rgba_to_bits rgba).length = width * height / 8
    ∧ (∀ p d : Nat, p < width * height / 8 → d < 8 →
        ((rgba_to_bits rgba).getD p 0).testBit d
          = decide (rgba.getD (4 * (8 * p + d)) 0 < 128))
    ∧ (bitmap_lines (rgba_to_bits rgba) width height).length = height
    ∧ (∀ l ∈ bitmap_lines (rgba_to_bits rgba) width height, l.length = width / 8)
    ∧ rgba_to_bits (flatRGBA (List.replicate 8 (255, 255, 255, 255))) = [0x00]
    ∧ rgba_to_bits (flatRGBA (List.replicate 8 (0, 0, 0, 255))) = [0xff] := by
  have hints : (rgbaToInts rgba).length = width * height := by
    rw [rgbaToInts_length, hlen]
    omega
  have hbits : (rgba_to_bits rgba).length = width * height / 8 := by
    rw [rgba_to_bits, packBytesAux_length, hints]
  refine ⟨hbits, ?_, ?_, ?_, by decide, by decide⟩
  · intro p d hp hd
    rw [rgba_to_bits, packBytesAux_testBit (rgbaToInts rgba) p d (by rw [hints]; exact hp) hd]
    rw [rgbaToInts_getD rgba (8 * p + d) (by rw [hlen]; omega) hbytes]
  · simp [bitmap_lines]
  · intro l hl
    simp only [bitmap_lines, List.mem_map, List.mem_range] at hl
    obtain ⟨y, hy, rfl⟩ := hl
    rw [List.length_take, List.length_drop, hbits]
    have hq : (width / 8) * height * 8 ≤ width * height := by
      calc (width / 8) * height * 8 = (width / 8) * 8 * height := by ring
      _ ≤ width * height := Nat.mul_le_mul_right height (Nat.div_mul_le_self width 8)
    have hqh : (width / 8) * height ≤ width * height / 8 :=
      (Nat.le_div_iff_mul_le (by norm_num)).mpr hq
    have hy1 : (y + 1) * (width / 8) ≤ (width / 8) * height := by
      rw [Nat.mul_comm]
      exact Nat.mul_le_mul_left (width / 8) hy
    have := hy1.trans hqh
    rw [Nat.succ_mul] at this
    omega

/-- Witness for C6 at a concrete 8×2 all-black raster. -/
theorem rgba_to_bits_spec_witness :
    (rgba_to_bits (flatRGBA (List.replicate 16 (0, 0, 0, 255)))).length = 8 * 2 / 8
    ∧ (∀ p d : Nat, p < 8 * 2 / 8 → d < 8 →
        ((rgba_to_bits (flatRGBA (List.replicate 16 (0, 0, 0, 255)))).getD p 0).testBit d
          = decide ((flatRGBA (List.replicate 16 (0, 0, 0, 255))).getD (4 * (8 * p + d)) 0 < 128))
    ∧ (bitmap_lines (rgba_to_bits (flatRGBA (List.replicate 16 (0, 0, 0, 255)))) 8 2).length = 2
    ∧ (∀ l ∈ bitmap_lines (rgba_to_bits (flatRGBA (List.replicate 16 (0, 0, 0, 255)))) 8 2,
        l.length = 8 / 8)
    ∧ rgba_to_bits (flatRGBA (List.replicate 8 (255, 255, 255, 255))) = [0x00]
    ∧ rgba_to_bits (flatRGBA (List.replicate 8 (0, 0, 0, 255))) = [0xff] :=
  rgba_to_bits_spec (flatRGBA (List.replicate 16 (0, 0, 0, 255))) 8 2
    (by decide) (by decide) (by decide)

end Thermy
